import Mathlib

/-!
Verification of the rate-limited demultiplexer
(`chain/network/src/concurrency/demux.rs`).

The dispatcher loop spawned by `Demux::new` is embedded as a step function
over an explicit loop state.  Each iteration of the Rust `while` loop is:
(1) schedule a refill deadline when `tokens < burst` and none is scheduled,
(2) a `tokio::select!` race, resolved here by an externally supplied `Event`
    (a refill firing, a call arriving, or the inbound endpoint closing);
    branches that are guard-disabled in the `select!` are no-ops,
(3) the dispatch check: if the pending queue is non-empty and `tokens > 0`,
    consume one token and emit the whole queue as a batch.

The per-batch executor spawned inside the loop is embedded as the pure
function `execBatch`; the handler is modelled as a pure function
`List Arg → List Res` carried with an identity, so that "which handler ran"
is observable.  `tokens` is a Rust `u64`; it is modelled as `Nat`, which is
sound because the proved invariant `tokens ≤ burst` shows the increment
`tokens += 1` never exceeds `burst` and hence never wraps.
-/

namespace Demux

/-- Config `RateLimit { burst: u64, qps: f64 }`.  `qps` is modelled as a
rational: no claim depends on rounding of `f64`, only on the sign of `qps`. -/
structure RateLimit where
  burst : Nat
  qps : Rat

/-- A demux handler, `BoxAsyncFn<Vec<Arg>, Vec<Res>>`, modelled as a pure
function on lists together with an identity `hid` so that handler execution
is observable.  (The asynchronous execution of the handler body is not
modelled; only which handler is invoked, on which arguments, and what it
returns.) -/
structure Handler (Arg Res : Type) where
  hid : Nat
  fn : List Arg → List Res

/-- Per-call envelope `struct Call { arg, out: oneshot::Sender<Res>, handler }`.
The oneshot sender is modelled by a channel identifier `out : Nat`. -/
structure Call (Arg Res : Type) where
  arg : Arg
  out : Nat
  handler : Handler Arg Res

/-- The local state of the dispatcher loop in `Demux::new`:
`calls` (the pending queue), `closed`, `tokens`, and whether a refill
deadline `next_token` is currently scheduled (the concrete `Instant` inside
the `Option` only feeds `sleep_until` and never influences the state
transitions, so only its presence is modelled). -/
structure LoopState (Arg Res : Type) where
  calls : List (Call Arg Res)
  closed : Bool
  tokens : Nat
  next_token : Bool

/-- The state at loop entry: `calls = vec![]`, `closed = false`,
`tokens = rl.burst`, `next_token = None`. -/
def initState (Arg Res : Type) (rl : RateLimit) : LoopState Arg Res :=
  { calls := [], closed := false, tokens := rl.burst, next_token := false }

/-- The three things the `tokio::select!` can resolve to: the scheduled
refill timer fires, `recv` yields a call, or `recv` yields `None`
(endpoint closed). -/
inductive Event (Arg Res : Type) where
  | refill
  | recv (c : Call Arg Res)
  | closeEv

/-- Step (1) of an iteration:
`if tokens < rl.burst && next_token.is_none() { next_token = Some(now + interval) }`. -/
def scheduleRefill (burst : Nat) (s : LoopState Arg Res) : LoopState Arg Res :=
  if s.tokens < burst ∧ s.next_token = false then
    { s with next_token := true }
  else s

/-- Step (2), the `select!`: the refill arm (guarded by
`next_token.is_some()`) does `tokens += 1; next_token = None`; the `recv`
arm (guarded by `!closed`) pushes the call, or sets `closed = true` on
`None`.  An event whose guard is false cannot be chosen by `select!`, so it
leaves the state unchanged here. -/
def selectStep (s : LoopState Arg Res) : Event Arg Res → LoopState Arg Res
  | .refill => if s.next_token then { s with tokens := s.tokens + 1, next_token := false } else s
  | .recv c => if s.closed then s else { s with calls := s.calls ++ [c] }
  | .closeEv => if s.closed then s else { s with closed := true }

/-- Step (3):
`if !calls.is_empty() && tokens > 0 { tokens -= 1; let calls = mem::take(&mut calls); tokio::spawn(...) }`.
Returns the new state and the batch handed to the spawned executor, if any. -/
def dispatchStep (s : LoopState Arg Res) :
    LoopState Arg Res × Option (List (Call Arg Res)) :=
  if s.calls.isEmpty = false ∧ 0 < s.tokens then
    ({ s with calls := [], tokens := s.tokens - 1 }, some s.calls)
  else (s, none)

/-- One full iteration of the dispatcher loop body, driven by one event. -/
def iter (burst : Nat) (s : LoopState Arg Res) (e : Event Arg Res) :
    LoopState Arg Res × Option (List (Call Arg Res)) :=
  dispatchStep (selectStep (scheduleRefill burst s) e)

/-- The `while` guard: `!calls.is_empty() || !closed`. -/
def loopContinues (s : LoopState Arg Res) : Bool :=
  !s.calls.isEmpty || !s.closed

/-- Run the dispatcher loop over a schedule of events, collecting every
batch handed to a spawned executor.  The loop guard is checked before each
iteration, exactly as the `while` does. -/
def run (burst : Nat) (s : LoopState Arg Res) :
    List (Event Arg Res) → LoopState Arg Res × List (List (Call Arg Res))
  | [] => (s, [])
  | e :: es =>
    if loopContinues s then
      let sb := iter burst s e
      let rest := run burst sb.1 es
      (rest.1, sb.2.toList ++ rest.2)
    else (s, [])

/-- Observable trace of one spawned batch executor: which handler identities
were invoked (in order), the `(returned, expected)` pair of the fatal
length-mismatch diagnostic if it fired, and the `(channel, result)` send
attempts in order. -/
structure BatchRun (Res : Type) where
  invoked : List Nat
  panicMsg : Option (Nat × Nat)
  sends : List (Nat × Res)

/-- The body of the executor spawned per batch: build `args`, `outs`,
`handlers` by iterating over the batch in order; take the first handler
(`handlers.into_iter().next().unwrap()` — `none` here models that unwrap
failing on an empty batch); run it on `args`; if the result length differs
from `outs.len()`, abort with the diagnostic
`"demux handler returned {res.len()} results, expected {outs.len()}"`
(carried as the pair `(res.length, outs.length)`) and send nothing;
otherwise send `res[i]` to `outs[i]` for each `i` via `res.zip(outs)`. -/
def execBatch (calls : List (Call Arg Res)) : Option (BatchRun Res) :=
  let args := calls.map Call.arg
  let outs := calls.map Call.out
  let handlers := calls.map Call.handler
  match handlers.head? with
  | none => none
  | some handler =>
    let res := handler.fn args
    if res.length ≠ outs.length then
      some { invoked := [handler.hid],
             panicMsg := some (res.length, outs.length),
             sends := [] }
    else
      some { invoked := [handler.hid],
             panicMsg := none,
             sends := (res.zip outs).map (fun ro => (ro.2, ro.1)) }

/-- The fan-out loop `for (res, out) in res.zip(outs) { let _ = out.send(res); }`:
each send is attempted in order; a send to a channel whose receiver is gone
(`alive out = false`) fails, the failure is discarded with `let _ =`, and
the loop continues with the remaining sends.  Returns the deliveries that
actually reached a live receiver. -/
def deliverAll (alive : Nat → Bool) : List (Nat × Res) → List (Nat × Res)
  | [] => []
  | p :: rest => (if alive p.1 then [p] else []) ++ deliverAll alive rest

/-- The cloneable handle `Demux(send)` wrapping the inbound channel. -/
structure Handle where
  chan : Nat
deriving DecidableEq

/-- The background task spawned by `new`: its first action is to compute the
refill interval; `interval = none` models the interval computation aborting
the task.  Its loop starts from `initState`. -/
structure SpawnedDispatcher (Arg Res : Type) where
  interval : Option Rat
  state : LoopState Arg Res

/-- Modelled from the spec: the interval computation
`(time::Duration::SECOND / rl.qps).try_into().unwrap()` uses the
`Duration` arithmetic of `near_network_primitives::time`, whose code is not
in `src/`; the spec (§3, §7) requires `qps > 0` "for a well-defined refill
interval" and calls a non-positive `qps` a configuration violation that
cannot yield a valid interval.  Accordingly the computation succeeds with
interval `1/qps` exactly when `0 < qps`, and aborts (`none`) otherwise. -/
def tryInterval (qps : Rat) : Option Rat :=
  if 0 < qps then some (1 / qps) else none

/-- Constructor `Demux::new(rl)`: creates the channel, spawns the
dispatcher task (whose own first step computes the interval), and returns
the handle.  `new` itself performs no validation and always returns a
handle. -/
def new (Arg Res : Type) (rl : RateLimit) : Handle × SpawnedDispatcher Arg Res :=
  (⟨0⟩, { interval := tryInterval rl.qps, state := initState Arg Res rl })

/-- Claim-side definition for C5, following the spec words rather than the
source: "non-positive qps — reject at construction time (fail fast)", i.e.
`new` returns no handle when `qps ≤ 0`. -/
def newSpecC5 (rl : RateLimit) : Option Handle :=
  if rl.qps ≤ 0 then none else some ⟨0⟩

/-- The token-bucket invariant maintained by the dispatcher loop:
`tokens` never exceeds `burst`, and whenever a refill deadline is
scheduled, `tokens` is strictly below `burst`. -/
def Inv (burst : Nat) (s : LoopState Arg Res) : Prop :=
  s.tokens ≤ burst ∧ (s.next_token = true → s.tokens < burst)

/-- A concrete call used to instantiate witness theorems. -/
def wCall : Call Nat Nat :=
  { arg := 7, out := 3, handler := { hid := 5, fn := fun l => l.map (fun a => a * 2) } }

/-- A second concrete call used to instantiate witness theorems. -/
def wCall2 : Call Nat Nat :=
  { arg := 9, out := 4, handler := { hid := 6, fn := fun l => l.map (fun a => a + 1) } }

/-! ### Helper lemmas -/

theorem isEmpty_false_iff (l : List α) : l.isEmpty = false ↔ l ≠ [] := by
  cases l <;> simp

theorem iter_batch_nonempty (burst : Nat) (s : LoopState Arg Res) (e : Event Arg Res)
    (b : List (Call Arg Res)) (hb : (iter burst s e).2 = some b) : b ≠ [] := by
  unfold iter dispatchStep at hb
  split at hb
  · rename_i h
    rw [← Option.some.inj hb]
    exact (isEmpty_false_iff _).mp h.1
  · simp at hb

theorem run_batch_nonempty (burst : Nat) (s : LoopState Arg Res) (es : List (Event Arg Res))
    (b : List (Call Arg Res)) (hb : b ∈ (run burst s es).2) : b ≠ [] := by
  induction es generalizing s with
  | nil => simp [run] at hb
  | cons e es ih =>
    unfold run at hb
    by_cases hc : loopContinues s
    · simp only [hc, if_true, List.mem_append] at hb
      rcases hb with h | h
      · cases ho : (iter burst s e).2 with
        | none => simp [ho] at h
        | some b0 =>
          simp [ho] at h
          exact h ▸ iter_batch_nonempty burst s e b0 ho
      · exact ih _ h
    · simp [hc] at hb

theorem execBatch_cons_ne_none (c : Call Arg Res) (cs : List (Call Arg Res)) :
    execBatch (c :: cs) ≠ none := by
  simp only [execBatch, List.map_cons, List.head?_cons]
  split <;> simp

theorem zip_map_swap (l1 : List α) (l2 : List β) :
    (l1.zip l2).map (fun p => (p.2, p.1)) = l2.zip l1 := by
  induction l1 generalizing l2 with
  | nil => simp
  | cons a l ih => cases l2 <;> simp [ih]

theorem get_zip (l1 : List α) (l2 : List β) (i : Nat) (h : i < (l1.zip l2).length)
    (h1 : i < l1.length) (h2 : i < l2.length) :
    (l1.zip l2).get ⟨i, h⟩ = (l1.get ⟨i, h1⟩, l2.get ⟨i, h2⟩) := by
  induction l1 generalizing l2 i with
  | nil => simp at h1
  | cons a l ih =>
    cases l2 with
    | nil => simp at h2
    | cons b m =>
      cases i with
      | zero => rfl
      | succ n =>
        exact ih m n (by simpa using h) (by simpa using h1) (by simpa using h2)

theorem get_map (f : α → β) (l : List α) (i : Nat) (h : i < (l.map f).length)
    (h2 : i < l.length) : (l.map f).get ⟨i, h⟩ = f (l.get ⟨i, h2⟩) := by
  induction l generalizing i with
  | nil => simp at h2
  | cons a l ih =>
    cases i with
    | zero => rfl
    | succ n => exact ih n (by simpa using h) (by simpa using h2)

theorem deliverAll_eq_filter (alive : Nat → Bool) (l : List (Nat × Res)) :
    deliverAll alive l = l.filter (fun p => alive p.1) := by
  induction l with
  | nil => rfl
  | cons p rest ih =>
    by_cases h : alive p.1 <;> simp [deliverAll, h, ih, List.filter]

theorem execBatch_ok (c : Call Arg Res) (cs : List (Call Arg Res))
    (hlen : (c.handler.fn ((c :: cs).map Call.arg)).length = (c :: cs).length) :
    execBatch (c :: cs) = some
      { invoked := [c.handler.hid], panicMsg := none,
        sends := ((c :: cs).map Call.out).zip
          (c.handler.fn ((c :: cs).map Call.arg)) } := by
  have hlen2 : (c.handler.fn (c.arg :: cs.map Call.arg)).length
      = (c.out :: cs.map Call.out).length := by
    simpa using hlen
  simp only [execBatch, List.map_cons, List.head?_cons]
  rw [if_neg (by simp [hlen2]), zip_map_swap]

/-! ### Claim theorems -/

/-- C1: whenever the pending queue is non-empty and the token count is
positive, the dispatch check consumes exactly one token and hands the
entire pending queue to one batch executor as a single batch, leaving the
pending queue empty; in particular if the queue holds K calls while
`tokens = 0` and then one refill fires, the whole queue of K calls is
emitted as one batch and the queue is empty afterwards. -/
theorem one_token_drains_whole_queue (burst : Nat) (s : LoopState Arg Res)
    (hne : s.calls.isEmpty = false) :
    (0 < s.tokens →
      dispatchStep s = ({ s with calls := [], tokens := s.tokens - 1 }, some s.calls)) ∧
    (s.tokens = 0 → 0 < burst →
      iter burst s Event.refill
        = ({ s with calls := [], tokens := 0, next_token := false }, some s.calls)) := by
  constructor
  · intro ht
    simp [dispatchStep, hne, ht]
  · intro ht hb
    cases hnt : s.next_token <;>
      simp [iter, scheduleRefill, selectStep, dispatchStep, hne, ht, hb, hnt]

theorem one_token_drains_whole_queue_witness :
    iter 1 ⟨[wCall, wCall2], false, 0, false⟩ Event.refill
      = (⟨[], false, 0, false⟩, some [wCall, wCall2]) :=
  (one_token_drains_whole_queue 1 ⟨[wCall, wCall2], false, 0, false⟩ rfl).2 rfl (by decide)

/-- C7: the `while` guard fails exactly when the endpoint has been observed
closed and the pending queue is empty; after closing, the dispatch check is
unchanged (it does not consult `closed`), so remaining pending calls are
still dispatched, and in particular a closed state with pending calls and
`tokens = 0 < burst` drains its whole queue on the next refill and then
the loop terminates. -/
theorem loop_ends_iff_closed_and_drained (burst : Nat) (s : LoopState Arg Res) :
    (loopContinues s = false ↔ s.closed = true ∧ s.calls = []) ∧
    (s.closed = true → s.calls.isEmpty = false → 0 < s.tokens →
      dispatchStep s = ({ s with calls := [], tokens := s.tokens - 1 }, some s.calls)) ∧
    (s.closed = true → s.calls.isEmpty = false → s.tokens = 0 → 0 < burst →
      loopContinues (iter burst s Event.refill).1 = false ∧
        (iter burst s Event.refill).2 = some s.calls) := by
  refine ⟨?_, ?_, ?_⟩
  · cases hcl : s.closed <;> cases hca : s.calls <;> simp [loopContinues, hcl, hca]
  · intro _ hne ht
    simp [dispatchStep, hne, ht]
  · intro hcl hne ht hb
    cases hnt : s.next_token <;>
      simp [iter, scheduleRefill, selectStep, dispatchStep, loopContinues,
        hne, ht, hb, hnt, hcl]

theorem loop_ends_iff_closed_and_drained_witness :
    loopContinues (iter 1 (⟨[wCall], true, 0, false⟩ : LoopState Nat Nat) Event.refill).1
        = false ∧
      (iter 1 (⟨[wCall], true, 0, false⟩ : LoopState Nat Nat) Event.refill).2
        = some [wCall] :=
  (loop_ends_iff_closed_and_drained 1 ⟨[wCall], true, 0, false⟩).2.2 rfl rfl rfl (by decide)

/-- C9: with `burst = 0` the refill-scheduling condition `tokens < burst`
is never satisfied starting from `tokens = 0`, so along every event
schedule no refill deadline is ever set, `tokens` stays `0`, and no batch
is ever emitted — hence no executor is spawned, no handler is invoked, and
no result is ever sent to any caller. -/
theorem burst_zero_never_dispatches (Arg Res : Type) (rl : RateLimit)
    (hb : rl.burst = 0) (es : List (Event Arg Res)) :
    (run rl.burst (initState Arg Res rl) es).2 = [] ∧
    (run rl.burst (initState Arg Res rl) es).1.tokens = 0 ∧
    (run rl.burst (initState Arg Res rl) es).1.next_token = false := by
  have key : ∀ (es : List (Event Arg Res)) (s : LoopState Arg Res),
      s.tokens = 0 → s.next_token = false →
      (run 0 s es).2 = [] ∧ (run 0 s es).1.tokens = 0 ∧
        (run 0 s es).1.next_token = false := by
    intro es
    induction es with
    | nil => intro s h1 h2; simp [run, h1, h2]
    | cons e es ih =>
      intro s h1 h2
      have hsched : scheduleRefill 0 s = s := by
        simp [scheduleRefill]
      have hsel : (selectStep s e).tokens = 0 ∧ (selectStep s e).next_token = false := by
        cases e with
        | refill => simp [selectStep, h2, h1]
        | recv c => cases hcl : s.closed <;> simp [selectStep, hcl, h1, h2]
        | closeEv => cases hcl : s.closed <;> simp [selectStep, hcl, h1, h2]
      have hdisp : dispatchStep (selectStep s e) = (selectStep s e, none) := by
        simp [dispatchStep, hsel.1]
      by_cases hc : loopContinues s
      · have := ih (selectStep s e) hsel.1 hsel.2
        simp only [run, hc, if_true, iter, hsched, hdisp]
        simpa using this
      · simp [run, hc, h1, h2]
  have h0 : (initState Arg Res rl).tokens = 0 := by simp [initState, hb]
  have h1 : (initState Arg Res rl).next_token = false := rfl
  rw [hb]
  exact key es _ h0 h1

theorem burst_zero_never_dispatches_witness :
    (run (0 : Nat) (initState Nat Nat ⟨0, 1⟩)
        [Event.recv wCall, Event.recv wCall2, Event.closeEv, Event.refill]).2 = [] ∧
    (run (0 : Nat) (initState Nat Nat ⟨0, 1⟩)
        [Event.recv wCall, Event.recv wCall2, Event.closeEv, Event.refill]).1.tokens = 0 ∧
    (run (0 : Nat) (initState Nat Nat ⟨0, 1⟩)
        [Event.recv wCall, Event.recv wCall2, Event.closeEv, Event.refill]).1.next_token
      = false :=
  burst_zero_never_dispatches Nat Nat ⟨0, 1⟩ rfl
    [Event.recv wCall, Event.recv wCall2, Event.closeEv, Event.refill]

/-- C10: every batch the dispatcher loop hands to a spawned executor is
non-empty (dispatch fires only when the pending queue is non-empty), so the
executor's extraction of the first handler
(`handlers.into_iter().next().unwrap()`) always succeeds: `execBatch` never
hits its empty-batch failure branch on a dispatched batch. -/
theorem dispatched_batch_nonempty_unwrap_safe (burst : Nat) (s : LoopState Arg Res)
    (es : List (Event Arg Res)) (b : List (Call Arg Res))
    (hb : b ∈ (run burst s es).2) :
    b ≠ [] ∧ execBatch b ≠ none := by
  have hne := run_batch_nonempty burst s es b hb
  refine ⟨hne, ?_⟩
  cases b with
  | nil => exact absurd rfl hne
  | cons c cs => exact execBatch_cons_ne_none c cs

theorem dispatched_batch_nonempty_unwrap_safe_witness :
    [wCall] ≠ [] ∧ execBatch [wCall] ≠ none :=
  dispatched_batch_nonempty_unwrap_safe 1 ⟨[], false, 1, false⟩ [Event.recv wCall] [wCall]
    (by
      have h : (run 1 (⟨[], false, 1, false⟩ : LoopState Nat Nat) [Event.recv wCall]).2
          = [[wCall]] := rfl
      rw [h]
      exact List.mem_singleton.mpr rfl)

/-- C2: for every dispatched (hence non-empty, written `c :: cs`) batch,
the executor invokes exactly one of the handlers supplied by the batch's
callers — the handler of the first call enqueued — and the handler of every
other call in the batch is dropped without being invoked. -/
theorem only_first_handler_invoked (c : Call Arg Res) (cs : List (Call Arg Res)) :
    ∃ r, execBatch (c :: cs) = some r ∧ r.invoked = [c.handler.hid] ∧
      ∀ c' ∈ cs, c'.handler.hid ≠ c.handler.hid → c'.handler.hid ∉ r.invoked := by
  simp only [execBatch, List.map_cons, List.head?_cons]
  split
  · exact ⟨_, rfl, rfl, by intro c' _ hne; simpa using hne⟩
  · exact ⟨_, rfl, rfl, by intro c' _ hne; simpa using hne⟩

theorem only_first_handler_invoked_witness :
    ∃ r, execBatch [wCall, wCall2] = some r ∧ r.invoked = [wCall.handler.hid] ∧
      ∀ c' ∈ [wCall2], c'.handler.hid ≠ wCall.handler.hid → c'.handler.hid ∉ r.invoked :=
  only_first_handler_invoked wCall [wCall2]

/-- C3: for a batch `c :: cs` of N calls, the chosen handler runs on the
arguments in enqueue order, and when its result has length N, the i-th
send targets the i-th caller's channel with the i-th result, for every
i < N (index-preserving fan-out via `res.zip(outs)`). -/
theorem fanout_index_preserving (c : Call Arg Res) (cs : List (Call Arg Res))
    (hlen : (c.handler.fn ((c :: cs).map Call.arg)).length = (c :: cs).length) :
    ∃ r, execBatch (c :: cs) = some r ∧
      r.sends = ((c :: cs).map Call.out).zip (c.handler.fn ((c :: cs).map Call.arg)) ∧
      r.sends.length = (c :: cs).length ∧
      ∀ (i : Nat) (h1 : i < r.sends.length) (h2 : i < (c :: cs).length)
        (h3 : i < (c.handler.fn ((c :: cs).map Call.arg)).length),
        r.sends.get ⟨i, h1⟩
          = (((c :: cs).get ⟨i, h2⟩).out,
             (c.handler.fn ((c :: cs).map Call.arg)).get ⟨i, h3⟩) := by
  have hfn : (c.handler.fn (c.arg :: cs.map Call.arg)).length = cs.length + 1 := by
    simpa using hlen
  refine ⟨_, execBatch_ok c cs hlen, rfl, ?_, ?_⟩
  · simp [List.length_zip, hfn]
  · intro i h1 h2 h3
    have hm : i < ((c :: cs).map Call.out).length := by simpa using h2
    rw [get_zip _ _ i h1 hm h3, get_map]

theorem fanout_index_preserving_witness :
    ∃ r, execBatch [wCall, wCall2] = some r ∧
      r.sends = (([wCall, wCall2]).map Call.out).zip
        (wCall.handler.fn (([wCall, wCall2]).map Call.arg)) ∧
      r.sends.length = ([wCall, wCall2]).length ∧
      ∀ (i : Nat) (h1 : i < r.sends.length) (h2 : i < ([wCall, wCall2]).length)
        (h3 : i < (wCall.handler.fn (([wCall, wCall2]).map Call.arg)).length),
        r.sends.get ⟨i, h1⟩
          = ((([wCall, wCall2]).get ⟨i, h2⟩).out,
             (wCall.handler.fn (([wCall, wCall2]).map Call.arg)).get ⟨i, h3⟩) :=
  fanout_index_preserving wCall [wCall2] rfl

/-- C6: for a batch `c :: cs` of N calls the executor aborts fatally if and
only if the handler's result length differs from N; the diagnostic carries
the actual returned length and the expected length N, and on a mismatch
nothing is sent (results are never truncated or misaligned), while on a
match every one of the N callers gets exactly one send. -/
theorem length_mismatch_fatal_diagnostic (c : Call Arg Res) (cs : List (Call Arg Res)) :
    ∃ r, execBatch (c :: cs) = some r ∧
      (r.panicMsg.isSome ↔
        (c.handler.fn ((c :: cs).map Call.arg)).length ≠ (c :: cs).length) ∧
      (∀ p, r.panicMsg = some p →
        p = ((c.handler.fn ((c :: cs).map Call.arg)).length, (c :: cs).length)
          ∧ r.sends = []) ∧
      (r.panicMsg = none → r.sends.length = (c :: cs).length) := by
  by_cases hc : (c.handler.fn ((c :: cs).map Call.arg)).length = (c :: cs).length
  · refine ⟨_, execBatch_ok c cs hc, ?_, ?_, ?_⟩
    · simpa using hc
    · intro p hp; simp at hp
    · intro _
      have hfn : (c.handler.fn (c.arg :: cs.map Call.arg)).length = cs.length + 1 := by
        simpa using hc
      simp [List.length_zip, hfn]
  · have hc2 : (c.handler.fn (c.arg :: cs.map Call.arg)).length
        ≠ (c.out :: cs.map Call.out).length := by
      simpa using hc
    refine ⟨⟨[c.handler.hid],
        some ((c.handler.fn ((c :: cs).map Call.arg)).length, (c :: cs).length), []⟩,
      ?_, ?_, ?_, ?_⟩
    · simp only [execBatch, List.map_cons, List.head?_cons]
      rw [if_pos hc2]
      simp
    · simp
      simpa using hc
    · intro p hp
      simp only [Option.some.injEq] at hp
      exact ⟨hp.symm, rfl⟩
    · intro hp; simp at hp

theorem length_mismatch_fatal_diagnostic_witness :
    ∃ r, execBatch [wCall, wCall2] = some r ∧
      (r.panicMsg.isSome ↔
        (wCall.handler.fn (([wCall, wCall2]).map Call.arg)).length
          ≠ ([wCall, wCall2]).length) ∧
      (∀ p, r.panicMsg = some p →
        p = ((wCall.handler.fn (([wCall, wCall2]).map Call.arg)).length,
             ([wCall, wCall2]).length) ∧ r.sends = []) ∧
      (r.panicMsg = none → r.sends.length = ([wCall, wCall2]).length) :=
  length_mismatch_fatal_diagnostic wCall [wCall2]

/-- C8: during fan-out, a send to a caller whose receiver is already gone
is ignored (the `for` loop simply skips it and continues), and every caller
of the same batch whose receiver is still alive still gets its own result,
irrespective of which other receivers are gone. -/
theorem dead_receiver_send_ignored (alive : Nat → Bool) (c : Call Arg Res)
    (cs : List (Call Arg Res))
    (hlen : (c.handler.fn ((c :: cs).map Call.arg)).length = (c :: cs).length)
    (i : Nat) (h2 : i < (c :: cs).length)
    (h3 : i < (c.handler.fn ((c :: cs).map Call.arg)).length)
    (halive : alive (((c :: cs).get ⟨i, h2⟩).out) = true) :
    ∃ r, execBatch (c :: cs) = some r ∧
      deliverAll alive r.sends = r.sends.filter (fun p => alive p.1) ∧
      ((((c :: cs).get ⟨i, h2⟩).out,
        (c.handler.fn ((c :: cs).map Call.arg)).get ⟨i, h3⟩)
          ∈ deliverAll alive r.sends) := by
  refine ⟨_, execBatch_ok c cs hlen, deliverAll_eq_filter alive _, ?_⟩
  rw [deliverAll_eq_filter]
  apply List.mem_filter.mpr
  have hfn : (c.handler.fn (c.arg :: cs.map Call.arg)).length = cs.length + 1 := by
    simpa using hlen
  have hsl : i < (((c :: cs).map Call.out).zip
      (c.handler.fn ((c :: cs).map Call.arg))).length := by
    simp [List.length_zip, hfn]
    simpa using h2
  have hm : i < ((c :: cs).map Call.out).length := by simpa using h2
  constructor
  · have := get_zip ((c :: cs).map Call.out)
      (c.handler.fn ((c :: cs).map Call.arg)) i hsl hm h3
    rw [get_map] at this
    exact this ▸ List.get_mem _ i hsl
  · exact halive

theorem dead_receiver_send_ignored_witness :
    ∃ r, execBatch [wCall, wCall2] = some r ∧
      deliverAll (fun o => o == 3) r.sends
        = r.sends.filter (fun p => (fun o => o == 3) p.1) ∧
      (((([wCall, wCall2]).get ⟨0, by decide⟩).out,
        (wCall.handler.fn (([wCall, wCall2]).map Call.arg)).get ⟨0, by decide⟩)
          ∈ deliverAll (fun o => o == 3) r.sends) :=
  dead_receiver_send_ignored (fun o => o == 3) wCall [wCall2] rfl 0
    (by decide) (by decide) rfl

theorem inv_init (Arg Res : Type) (rl : RateLimit) :
    Inv rl.burst (initState Arg Res rl) :=
  ⟨Nat.le_refl _, by simp [initState]⟩

theorem inv_schedule (burst : Nat) (s : LoopState Arg Res) (h : Inv burst s) :
    (scheduleRefill burst s).tokens ≤ burst ∧
      ((scheduleRefill burst s).next_token = true
        ↔ (scheduleRefill burst s).tokens < burst) := by
  unfold scheduleRefill
  split
  · rename_i hc
    exact ⟨Nat.le_of_lt hc.1, by simpa using hc.1⟩
  · rename_i hc
    refine ⟨h.1, h.2, ?_⟩
    intro hlt
    by_contra hnt
    exact hc ⟨hlt, by simpa using hnt⟩

theorem inv_select (burst : Nat) (t : LoopState Arg Res) (e : Event Arg Res)
    (h1 : t.tokens ≤ burst) (h2 : t.next_token = true ↔ t.tokens < burst) :
    Inv burst (selectStep t e) := by
  cases e with
  | refill =>
    cases hnt : t.next_token
    · exact ⟨by simpa [selectStep, hnt] using h1, by simp [selectStep, hnt]⟩
    · have hlt := h2.mp hnt
      exact ⟨by simpa [selectStep, hnt] using hlt, by simp [selectStep, hnt]⟩
  | recv c =>
    cases hcl : t.closed <;>
      exact ⟨by simpa [selectStep, hcl] using h1, by simpa [selectStep, hcl] using h2.mp⟩
  | closeEv =>
    cases hcl : t.closed <;>
      exact ⟨by simpa [selectStep, hcl] using h1, by simpa [selectStep, hcl] using h2.mp⟩

theorem inv_dispatch (burst : Nat) (s : LoopState Arg Res) (h : Inv burst s) :
    Inv burst (dispatchStep s).1 := by
  unfold dispatchStep
  split
  · exact ⟨Nat.le_trans (Nat.sub_le _ _) h.1,
      fun hnt => Nat.lt_of_le_of_lt (Nat.sub_le _ _) (h.2 hnt)⟩
  · exact h

theorem inv_iter (burst : Nat) (s : LoopState Arg Res) (e : Event Arg Res)
    (h : Inv burst s) : Inv burst (iter burst s e).1 := by
  have hs := inv_schedule burst s h
  exact inv_dispatch burst _ (inv_select burst _ e hs.1 hs.2)

theorem inv_run (burst : Nat) (s : LoopState Arg Res) (es : List (Event Arg Res))
    (h : Inv burst s) : Inv burst (run burst s es).1 := by
  induction es generalizing s with
  | nil => exact h
  | cons e es ih =>
    by_cases hc : loopContinues s
    · simpa [run, hc] using ih _ (inv_iter burst s e h)
    · simpa [run, hc] using h

/-- C4: along every event schedule from the initial state, at the top of a
loop iteration after refill scheduling the token bucket satisfies
`tokens ≤ burst` and a refill deadline is scheduled exactly when
`tokens < burst`; consequently a firing refill yields
`tokens = min(burst, tokens + 1)`, so `tokens` never exceeds `burst` even
though the refill arm does a bare `tokens += 1`. -/
theorem token_bucket_invariant (Arg Res : Type) (rl : RateLimit)
    (es : List (Event Arg Res)) :
    (scheduleRefill rl.burst ((run rl.burst (initState Arg Res rl) es).1)).tokens
        ≤ rl.burst ∧
    ((scheduleRefill rl.burst ((run rl.burst (initState Arg Res rl) es).1)).next_token
          = true
      ↔ (scheduleRefill rl.burst ((run rl.burst (initState Arg Res rl) es).1)).tokens
          < rl.burst) ∧
    (selectStep (scheduleRefill rl.burst ((run rl.burst (initState Arg Res rl) es).1))
          Event.refill).tokens
      = min rl.burst
          ((scheduleRefill rl.burst
            ((run rl.burst (initState Arg Res rl) es).1)).tokens + 1) := by
  have hInv := inv_run rl.burst (initState Arg Res rl) es (inv_init Arg Res rl)
  have hs := inv_schedule rl.burst _ hInv
  refine ⟨hs.1, hs.2, ?_⟩
  cases hnt : (scheduleRefill rl.burst ((run rl.burst (initState Arg Res rl) es).1)).next_token
  · have hnlt : ¬ (scheduleRefill rl.burst
        ((run rl.burst (initState Arg Res rl) es).1)).tokens < rl.burst := by
      intro hlt
      rw [hs.2.mpr hlt] at hnt
      simp at hnt
    have heq := Nat.le_antisymm hs.1 (Nat.not_lt.mp hnlt)
    simp [selectStep, hnt, heq, Nat.min_eq_left (Nat.le_succ _)]
  · have hlt := hs.2.mp hnt
    simp [selectStep, hnt, Nat.min_eq_right (Nat.succ_le_of_lt hlt)]

/-- C5 counterexample: with `qps = 0` (so `qps ≤ 0`), the spec-side
construction `newSpecC5` yields no handle, but the code's `new` still
returns the handle — the failure surfaces only as the spawned dispatcher
task's interval computation aborting (`interval = none`), i.e. after `new`
has returned. -/
theorem construction_accepts_nonpositive_qps :
    newSpecC5 ⟨1, 0⟩ = none ∧
    (new Nat Nat ⟨1, 0⟩).1 = ⟨0⟩ ∧
    (new Nat Nat ⟨1, 0⟩).2.interval = none := by
  refine ⟨?_, rfl, ?_⟩ <;> simp [newSpecC5, new, tryInterval]

/-- C5 (amended): a non-positive `qps` is not rejected at construction
time: `Demux::new` always returns a handle; the interval computation
`(Duration::SECOND / qps).try_into().unwrap()` runs inside the spawned
dispatcher task, which is where a non-positive `qps` aborts — after the
handle has been returned. -/
theorem nonpositive_qps_fails_in_spawned_task (Arg Res : Type) (rl : RateLimit)
    (h : rl.qps ≤ 0) :
    (new Arg Res rl).1 = ⟨0⟩ ∧ (new Arg Res rl).2.interval = none := by
  refine ⟨rfl, ?_⟩
  simp [new, tryInterval, not_lt.mpr h]

theorem nonpositive_qps_fails_in_spawned_task_witness :
    (new Nat Nat ⟨2, -3⟩).1 = ⟨0⟩ ∧ (new Nat Nat ⟨2, -3⟩).2.interval = none :=
  nonpositive_qps_fails_in_spawned_task Nat Nat ⟨2, -3⟩ (by norm_num)

end Demux
